import Mathlib

/-!
Verification of the ai-marketing-news ingestion pipeline against its
specification.  The backend services (scoring gateway, duplicate clustering,
record store, pipeline orchestrator) are embedded from the specification's
description of them; the frontend selection and progress-bar logic is embedded
directly from the TypeScript source (Dashboard and Stories pages).
-/

/-! ## Data model -/

/-- Modelled from the spec: a raw candidate item handed to the orchestrator by
the crawl collaborator (spec section 6), carrying at least
canonical_url, title, description, content, published_date, source_domain and
source_name. -/
structure Candidate where
  canonical_url : String
  title : String
  description : String
  content : String
  published_date : Int
  source_domain : String
  source_name : String
deriving DecidableEq

/-- A story record, following the Story interface of
frontend/src/types/index.ts and spec section 3: composite score and the five
sub-scores are optional (absent until scored); dates are modelled as integers
(days); the fingerprint is the Fingerprint Engine's 64-bit value for the
story's text. -/
structure Story where
  id : String
  canonical_url : String
  title : String
  description : String
  content : String
  published_date : Int
  fetched_date : Int
  source_domain : String
  source_name : String
  score : Option Int
  relevance_score : Option Nat
  impact_score : Option Nat
  adoption_score : Option Nat
  urgency_score : Option Nat
  credibility_score : Option Nat
  tags : List String
  action_hint : String
  fingerprint : Nat
  is_canonical : Bool
  similar_stories : List String
deriving DecidableEq

/-! ## Scoring Gateway (spec section 4.4; backend llm_service.py is not in the
source tree, so these are modelled from the spec) -/

/-- Modelled from the spec: the composite score is the weighted sum of the five
0-100 sub-scores (relevance 0.35, impact 0.25, adoption 0.15, urgency 0.15,
credibility 0.10), rounded to an integer. -/
def compositeScore (r i a u c : Nat) : Int :=
  round ((35 / 100 : ℚ) * r + (25 / 100 : ℚ) * i + (15 / 100 : ℚ) * a
    + (15 / 100 : ℚ) * u + (10 / 100 : ℚ) * c)

/-- The parsed result of one scoring-oracle call: five sub-scores, a tag set
and an action hint. -/
structure ScoreResult where
  relevance : Nat
  impact : Nat
  adoption : Nat
  urgency : Nat
  credibility : Nat
  tags : List String
  action_hint : String
deriving DecidableEq

/-- Modelled from the spec: the Scoring Gateway parses the oracle response,
which must yield five 0-100 sub-scores, a tag set and an action hint, or an
explicit failure (spec section 6). -/
def parseScoreResult (r i a u c : Int) (tg : List String) (ah : String) :
    Option ScoreResult :=
  if 0 ≤ r ∧ r ≤ 100 ∧ 0 ≤ i ∧ i ≤ 100 ∧ 0 ≤ a ∧ a ≤ 100 ∧ 0 ≤ u ∧ u ≤ 100
      ∧ 0 ≤ c ∧ c ≤ 100 then
    some ⟨r.toNat, i.toNat, a.toNat, u.toNat, c.toNat, tg, ah⟩
  else
    none

/-- Modelled from the spec: the Pipeline Orchestrator creates a story record
from a candidate; the id is derived from the canonical source URL and all six
score fields are absent until the story is scored (spec section 3). -/
def storyFromCandidate (sid : String) (fp : Nat) (fetched : Int)
    (c : Candidate) : Story :=
  { id := sid
    canonical_url := c.canonical_url
    title := c.title
    description := c.description
    content := c.content
    published_date := c.published_date
    fetched_date := fetched
    source_domain := c.source_domain
    source_name := c.source_name
    score := none
    relevance_score := none
    impact_score := none
    adoption_score := none
    urgency_score := none
    credibility_score := none
    tags := []
    action_hint := ""
    fingerprint := fp
    is_canonical := true
    similar_stories := [] }

/-- Modelled from the spec: a successfully parsed score result is recorded on
the story: the five sub-scores, the composite, the tags and the action hint. -/
def applyScore (s : Story) (sr : ScoreResult) : Story :=
  { s with
    score := some (compositeScore sr.relevance sr.impact sr.adoption
      sr.urgency sr.credibility)
    relevance_score := some sr.relevance
    impact_score := some sr.impact
    adoption_score := some sr.adoption
    urgency_score := some sr.urgency
    credibility_score := some sr.credibility
    tags := sr.tags
    action_hint := sr.action_hint }

lemma compositeScore_nonneg (r i a u c : Nat) : 0 ≤ compositeScore r i a u c := by
  unfold compositeScore
  rw [round_eq, Int.le_floor]
  have hr : (0 : ℚ) ≤ (r : ℚ) := Nat.cast_nonneg r
  have hi : (0 : ℚ) ≤ (i : ℚ) := Nat.cast_nonneg i
  have ha : (0 : ℚ) ≤ (a : ℚ) := Nat.cast_nonneg a
  have hu : (0 : ℚ) ≤ (u : ℚ) := Nat.cast_nonneg u
  have hc : (0 : ℚ) ≤ (c : ℚ) := Nat.cast_nonneg c
  push_cast
  linarith

lemma compositeScore_le (r i a u c : Nat) (hr : r ≤ 100) (hi : i ≤ 100)
    (ha : a ≤ 100) (hu : u ≤ 100) (hc : c ≤ 100) :
    compositeScore r i a u c ≤ 100 := by
  unfold compositeScore
  rw [round_eq]
  have hr' : (r : ℚ) ≤ 100 := by exact_mod_cast hr
  have hi' : (i : ℚ) ≤ 100 := by exact_mod_cast hi
  have ha' : (a : ℚ) ≤ 100 := by exact_mod_cast ha
  have hu' : (u : ℚ) ≤ 100 := by exact_mod_cast hu
  have hc' : (c : ℚ) ≤ 100 := by exact_mod_cast hc
  have hq : (35 / 100 : ℚ) * r + (25 / 100 : ℚ) * i + (15 / 100 : ℚ) * a
      + (15 / 100 : ℚ) * u + (10 / 100 : ℚ) * c + 1 / 2 < 101 := by linarith
  have hfl : ⌊(35 / 100 : ℚ) * r + (25 / 100 : ℚ) * i + (15 / 100 : ℚ) * a
      + (15 / 100 : ℚ) * u + (10 / 100 : ℚ) * c + 1 / 2⌋ < (101 : Int) :=
    Int.floor_lt.mpr (by exact_mod_cast hq)
  omega

/-- C6: for all five sub-scores in [0,100], the composite returned by the
Scoring Gateway is round(0.35 r + 0.25 i + 0.15 a + 0.15 u + 0.10 c), an
integer in [0,100]. -/
theorem composite_score_is_rounded_weighted_sum_in_range
    (r i a u c : Nat) (hr : r ≤ 100) (hi : i ≤ 100) (ha : a ≤ 100)
    (hu : u ≤ 100) (hc : c ≤ 100) :
    compositeScore r i a u c
      = round (((35 * r + 25 * i + 15 * a + 15 * u + 10 * c : ℚ)) / 100)
    ∧ 0 ≤ compositeScore r i a u c ∧ compositeScore r i a u c ≤ 100 := by
  refine ⟨?_, compositeScore_nonneg r i a u c,
    compositeScore_le r i a u c hr hi ha hu hc⟩
  unfold compositeScore
  ring_nf

theorem composite_score_witness :
    (80 : Nat) ≤ 100 ∧ compositeScore 80 70 60 50 90 ≤ 100 :=
  ⟨by decide, (composite_score_is_rounded_weighted_sum_in_range 80 70 60 50 90
    (by decide) (by decide) (by decide) (by decide) (by decide)).2.2⟩

/-- C7: score fields are absent until the story is scored; once the Scoring
Gateway has parsed a valid result and it is applied, all six fields are
present, the sub-scores are integers at most 100 and the composite is an
integer in [0,100]. -/
theorem story_score_fields_absent_until_scored_then_in_range :
    (∀ (sid : String) (fp : Nat) (fetched : Int) (c : Candidate),
      (storyFromCandidate sid fp fetched c).score = none
      ∧ (storyFromCandidate sid fp fetched c).relevance_score = none
      ∧ (storyFromCandidate sid fp fetched c).impact_score = none
      ∧ (storyFromCandidate sid fp fetched c).adoption_score = none
      ∧ (storyFromCandidate sid fp fetched c).urgency_score = none
      ∧ (storyFromCandidate sid fp fetched c).credibility_score = none)
    ∧ (∀ (r i a u c : Int) (tg : List String) (ah : String) (sr : ScoreResult),
        parseScoreResult r i a u c tg ah = some sr → ∀ st : Story,
        (∃ v, (applyScore st sr).score = some v ∧ 0 ≤ v ∧ v ≤ 100)
        ∧ (∃ v, (applyScore st sr).relevance_score = some v ∧ v ≤ 100)
        ∧ (∃ v, (applyScore st sr).impact_score = some v ∧ v ≤ 100)
        ∧ (∃ v, (applyScore st sr).adoption_score = some v ∧ v ≤ 100)
        ∧ (∃ v, (applyScore st sr).urgency_score = some v ∧ v ≤ 100)
        ∧ (∃ v, (applyScore st sr).credibility_score = some v ∧ v ≤ 100)) := by
  constructor
  · intro sid fp fetched c
    exact ⟨rfl, rfl, rfl, rfl, rfl, rfl⟩
  · intro r i a u c tg ah sr hp st
    unfold parseScoreResult at hp
    split at hp
    case isFalse => exact absurd hp (by simp)
    case isTrue h =>
      obtain ⟨hr0, hr1, hi0, hi1, ha0, ha1, hu0, hu1, hc0, hc1⟩ := h
      have hsr : sr = ⟨r.toNat, i.toNat, a.toNat, u.toNat, c.toNat, tg, ah⟩ :=
        (Option.some_inj.mp hp).symm
      subst hsr
      have hrN : r.toNat ≤ 100 := Int.toNat_le.mpr hr1
      have hiN : i.toNat ≤ 100 := Int.toNat_le.mpr hi1
      have haN : a.toNat ≤ 100 := Int.toNat_le.mpr ha1
      have huN : u.toNat ≤ 100 := Int.toNat_le.mpr hu1
      have hcN : c.toNat ≤ 100 := Int.toNat_le.mpr hc1
      refine ⟨⟨_, rfl, compositeScore_nonneg _ _ _ _ _,
        compositeScore_le _ _ _ _ _ hrN hiN haN huN hcN⟩,
        ⟨_, rfl, hrN⟩, ⟨_, rfl, hiN⟩, ⟨_, rfl, haN⟩, ⟨_, rfl, huN⟩,
        ⟨_, rfl, hcN⟩⟩

theorem story_score_fields_witness :
    parseScoreResult 80 70 60 50 90 [] "" = some ⟨80, 70, 60, 50, 90, [], ""⟩
    ∧ ∀ st : Story,
      ∃ v, (applyScore st ⟨80, 70, 60, 50, 90, [], ""⟩).score = some v
        ∧ 0 ≤ v ∧ v ≤ 100 :=
  ⟨by decide, fun st =>
    ((story_score_fields_absent_until_scored_then_in_range.2
      80 70 60 50 90 [] "" ⟨80, 70, 60, 50, 90, [], ""⟩ (by decide) st).1)⟩

/-! ## Frontend selection logic (embedded from
frontend/src/pages/Stories.tsx: handleSelectStory and handleSelectAll) -/

/-- handleSelectStory from the Stories page: if the id is already selected it
is filtered out, otherwise it is appended at the end. -/
def handleSelectStory (storyId : String) (prev : List String) : List String :=
  if prev.contains storyId then
    prev.filter (fun id => id != storyId)
  else
    prev ++ [storyId]

/-- handleSelectAll from the Stories page: when the prior selection's length
equals the number of displayed stories the selection is cleared, otherwise it
becomes the ids of all displayed stories; when the story data is absent the
length comparison is false and the fallback yields the empty list. -/
def handleSelectAll (selectedStories : List String)
    (storiesData : Option (List Story)) : List String :=
  match storiesData with
  | some stories =>
      if selectedStories.length = stories.length then []
      else stories.map Story.id
  | none => []

/-- The list of displayed stories corresponding to the optional query data. -/
def displayedStories (storiesData : Option (List Story)) : List Story :=
  storiesData.getD []

/-- C10: after handleSelectAll the selection is either empty (when the prior
selection's length equals the number of displayed stories) or exactly the
list of all displayed story ids in display order. -/
theorem handle_select_all_two_states (sel : List String)
    (storiesData : Option (List Story)) :
    (sel.length = (displayedStories storiesData).length
      ∧ handleSelectAll sel storiesData = [])
    ∨ (sel.length ≠ (displayedStories storiesData).length
      ∧ handleSelectAll sel storiesData
        = (displayedStories storiesData).map Story.id) := by
  cases storiesData with
  | none =>
      by_cases h : sel.length = ([] : List Story).length
      · exact Or.inl ⟨h, rfl⟩
      · exact Or.inr ⟨h, rfl⟩
  | some stories =>
      by_cases h : sel.length = stories.length
      · exact Or.inl ⟨h, by simp [handleSelectAll, h]⟩
      · exact Or.inr ⟨h, by simp [handleSelectAll, h, displayedStories]⟩

/-! ## Frontend progress bar (embedded from the Dashboard page's refresh
status block) -/

/-- JavaScript Array.prototype.indexOf on a list of strings: the index of the
first occurrence, or -1 when absent. -/
def jsIndexOf (xs : List String) (x : String) : Int :=
  match xs with
  | [] => -1
  | y :: ys =>
      if y = x then 0
      else
        let r := jsIndexOf ys x
        if r = -1 then -1 else r + 1

/-- The stage list hard-coded in the Dashboard progress bar. -/
def progressStages : List String :=
  ["start", "crawled", "scoring", "scoring_complete", "deduplicating", "saving"]

/-- The progress-bar width computed by the Dashboard: 15 for an unknown
stage, otherwise ((index + 1) / (stages.length + 1)) * 100 clamped to
[15, 95]. -/
def progressWidth (stage : String) : ℚ :=
  let index := jsIndexOf progressStages stage
  if index = -1 then 15
  else min 95 (max 15 (((index : ℚ) + 1) / ((progressStages.length : ℚ) + 1) * 100))

lemma jsIndexOf_eq_neg_one_of_not_mem {xs : List String} {x : String}
    (h : x ∉ xs) : jsIndexOf xs x = -1 := by
  induction xs with
  | nil => rfl
  | cons y ys ih =>
      have hy : y ≠ x := fun hyx => h (hyx ▸ List.mem_cons_self y ys)
      have hx : x ∉ ys := fun hxs => h (List.mem_cons_of_mem y hxs)
      simp [jsIndexOf, hy, ih hx]

/-- C8: the Dashboard progress-bar width always lies in [15, 95]; an unknown
stage yields exactly 15, and a stage at index i yields
min(95, max(15, ((i + 1) / 7) * 100)). -/
theorem progress_width_clamped (stage : String) :
    15 ≤ progressWidth stage ∧ progressWidth stage ≤ 95
    ∧ (stage ∉ progressStages → progressWidth stage = 15)
    ∧ (∀ i : Nat, jsIndexOf progressStages stage = (i : Int) →
        progressWidth stage = min 95 (max 15 (((i : ℚ) + 1) / 7 * 100))) := by
  refine ⟨?_, ?_, ?_, ?_⟩
  · unfold progressWidth
    by_cases h : jsIndexOf progressStages stage = -1
    · simp [h]
    · simp only [h, if_false]
      exact le_min (by norm_num) (le_max_left 15 _)
  · unfold progressWidth
    by_cases h : jsIndexOf progressStages stage = -1
    · simp [h]; norm_num
    · simp only [h, if_false]
      exact min_le_left 95 _
  · intro h
    unfold progressWidth
    simp [jsIndexOf_eq_neg_one_of_not_mem h]
  · intro i hi
    unfold progressWidth
    rw [hi, if_neg (by omega : ¬((i : Int) = -1))]
    push_cast
    norm_num [progressStages]

theorem progress_width_witness :
    ("unknown" ∉ progressStages) ∧ progressWidth "unknown" = 15 :=
  ⟨by decide, (progress_width_clamped "unknown").2.2.1 (by decide)⟩

lemma handleSelectStory_of_mem {prev : List String} {x : String}
    (h : x ∈ prev) :
    handleSelectStory x prev = prev.filter (fun id => id != x) := by
  unfold handleSelectStory
  rw [if_pos]
  simpa [List.contains] using h

lemma handleSelectStory_of_not_mem {prev : List String} {x : String}
    (h : x ∉ prev) :
    handleSelectStory x prev = prev ++ [x] := by
  unfold handleSelectStory
  rw [if_neg]
  simpa [List.contains] using h

/-- C9 counterexample: the selection ["a", "b"] has no duplicates, yet
toggling "a" twice yields ["b", "a"], not the original list: the first toggle
removes "a" from the middle and the second appends it at the end. -/
theorem handle_select_story_not_involutive :
    (["a", "b"] : List String).Nodup
    ∧ handleSelectStory "a" (handleSelectStory "a" ["a", "b"]) ≠ ["a", "b"] := by
  constructor
  · decide
  · decide

/-- C9 (amended): for a duplicate-free selection, one application of
handleSelectStory removes the id when present and appends it at the end when
absent; applying it twice returns a permutation of the original selection
(the same set of selected ids, with the toggled id moved to the end), and
returns exactly the original list when the id was absent. -/
theorem handle_select_story_toggle (prev : List String) (x : String)
    (hnd : prev.Nodup) :
    (x ∉ prev → handleSelectStory x (handleSelectStory x prev) = prev)
    ∧ (handleSelectStory x (handleSelectStory x prev)).Perm prev
    ∧ (x ∈ prev → handleSelectStory x prev = prev.erase x)
    ∧ (x ∉ prev → handleSelectStory x prev = prev ++ [x]) := by
  by_cases hx : x ∈ prev
  · have h1 : handleSelectStory x prev = prev.filter (fun id => id != x) :=
      handleSelectStory_of_mem hx
    have hxF : x ∉ prev.filter (fun id => id != x) := by
      simp [List.mem_filter]
    have h2 : handleSelectStory x (handleSelectStory x prev)
        = prev.filter (fun id => id != x) ++ [x] := by
      rw [h1, handleSelectStory_of_not_mem hxF]
    refine ⟨fun hc => absurd hx hc, ?_, fun _ => ?_, fun hc => absurd hx hc⟩
    · rw [h2]
      have e1 : (prev.filter (fun id => id != x) ++ [x]).Perm
          (x :: prev.filter (fun id => id != x)) :=
        List.perm_append_singleton x _
      have e3 : (x :: prev.erase x).Perm prev := (List.perm_cons_erase hx).symm
      rw [List.Nodup.erase_eq_filter hnd] at e3
      exact e1.trans e3
    · rw [h1, List.Nodup.erase_eq_filter hnd]
  · have h1 : handleSelectStory x prev = prev ++ [x] :=
      handleSelectStory_of_not_mem hx
    have hmem : x ∈ prev ++ [x] := by simp
    have h2 : handleSelectStory x (handleSelectStory x prev) = prev := by
      rw [h1, handleSelectStory_of_mem hmem, List.filter_append]
      have hself : prev.filter (fun id => id != x) = prev :=
        List.filter_eq_self.mpr (fun a ha => by
          have : a ≠ x := fun hax => hx (hax ▸ ha)
          simpa using this)
      simp [hself]
    exact ⟨fun _ => h2, by rw [h2], fun hc => absurd hc hx, fun _ => h1⟩

theorem handle_select_story_toggle_witness :
    (["a", "b"] : List String).Nodup
    ∧ (handleSelectStory "c" (handleSelectStory "c" ["a", "b"])) = ["a", "b"] :=
  ⟨by decide, (handle_select_story_toggle ["a", "b"] "c" (by decide)).1
    (by decide)⟩

/-! ## Fingerprint Engine and Duplicate Clustering (spec sections 4.1 and 4.2;
backend deduplication.py is not in the source tree, so these are modelled
from the spec) -/

/-- Population count with structural fuel (the fuel n is always enough for
the number n itself). -/
def popCountAux : Nat → Nat → Nat
  | 0, _ => 0
  | fuel + 1, n => if n = 0 then 0 else n % 2 + popCountAux fuel (n / 2)

/-- Modelled from the spec: number of set bits of a fingerprint word. -/
def popCount (n : Nat) : Nat := popCountAux n n

/-- Modelled from the spec: the Fingerprint Engine's distance is the
population count of the XOR of two fingerprints (Hamming distance). -/
def hammingDistance (a b : Nat) : Nat := popCount (a ^^^ b)

/-- Modelled from the spec: two stories are candidate near-duplicates when
their fingerprints are within the Hamming threshold T and their published
dates fall within the window W of each other. -/
def nearDuplicate (T W : Nat) (a b : Story) : Bool :=
  decide (hammingDistance a.fingerprint b.fingerprint ≤ T)
    && decide ((a.published_date - b.published_date).natAbs ≤ W)

lemma hammingDistance_comm (a b : Nat) :
    hammingDistance a b = hammingDistance b a := by
  unfold hammingDistance
  rw [Nat.xor_comm]

lemma nearDuplicate_comm (T W : Nat) (a b : Story) :
    nearDuplicate T W a b = nearDuplicate T W b a := by
  unfold nearDuplicate
  rw [hammingDistance_comm,
    ← Int.natAbs_neg (a.published_date - b.published_date), neg_sub]

/-- Modelled from the spec: incremental union step of the connected-component
computation; the new story s is merged with every existing cluster containing
a neighbour of s. -/
def insertIntoClusters (adjB : Story → Story → Bool)
    (groups : List (List Story)) (s : Story) : List (List Story) :=
  (s :: (groups.filter (fun g => g.any (fun y => adjB y s))).flatten)
    :: groups.filter (fun g => !(g.any (fun y => adjB y s)))

/-- Modelled from the spec: connected components of the candidate-pair graph
over the input batch, built incrementally (equivalent to union-find as the
spec prescribes). -/
def buildClusters (adjB : Story → Story → Bool) : List Story → List (List Story)
  | [] => []
  | s :: rest => insertIntoClusters adjB (buildClusters adjB rest) s

/-- Rank of an optional composite score during canonical selection: an
unscored story can never beat a scored one. -/
def scoreRank : Option Int → Int
  | none => -1
  | some v => v

/-- Modelled from the spec: canonical preference between two cluster members:
highest composite score, tie-break by earliest published date, tie-break by
lexicographically smallest id. -/
def preferredOver (a b : Story) : Bool :=
  decide (scoreRank b.score < scoreRank a.score)
    || (decide (scoreRank a.score = scoreRank b.score)
      && (decide (a.published_date < b.published_date)
        || (decide (a.published_date = b.published_date)
          && decide (a.id < b.id))))

/-- Fold selecting the preferred member of a cluster. -/
def pickCanonical (cur : Story) : List Story → Story
  | [] => cur
  | s :: rest => pickCanonical (if preferredOver s cur then s else cur) rest

/-- Modelled from the spec: the canonical choice for a cluster (none only for
an empty cluster, which the clustering never produces). -/
def selectCanonical : List Story → Option Story
  | [] => none
  | s :: rest => some (pickCanonical s rest)

/-- Modelled from the spec: rewrite one cluster's records: the canonical
member gets is_canonical = true, every other member false, and every member's
similar_stories lists the ids of all other members of its cluster. -/
def labelCluster (g : List Story) : List Story :=
  match selectCanonical g with
  | none => []
  | some c =>
      g.map (fun s =>
        { s with
          is_canonical := decide (s = c)
          similar_stories := (g.filter (fun t => t != s)).map Story.id })

/-- Modelled from the spec: Duplicate Clustering end to end: partition the
batch into connected components and relabel each cluster. -/
def dedupClusters (T W : Nat) (stories : List Story) : List (List Story) :=
  (buildClusters (nearDuplicate T W) stories).map labelCluster

lemma buildClusters_flatten_perm (adjB : Story → Story → Bool)
    (l : List Story) : ((buildClusters adjB l).flatten).Perm l := by
  induction l with
  | nil => simp [buildClusters]
  | cons s rest ih =>
      simp only [buildClusters, insertIntoClusters, List.flatten_cons,
        List.cons_append]
      refine List.Perm.cons s ?_
      have h1 := List.Perm.flatten
        (List.filter_append_perm (fun g => g.any (fun y => adjB y s))
          (buildClusters adjB rest))
      rw [List.flatten_append] at h1
      exact h1.trans ih

lemma exists_cluster_of_mem (adjB : Story → Story → Bool) {l : List Story}
    {x : Story} (hx : x ∈ l) :
    ∃ g, g ∈ buildClusters adjB l ∧ x ∈ g := by
  have hm : x ∈ (buildClusters adjB l).flatten :=
    (buildClusters_flatten_perm adjB l).mem_iff.mpr hx
  rcases List.mem_flatten.mp hm with ⟨g, hg, hxg⟩
  exact ⟨g, hg, hxg⟩

lemma mem_input_of_mem_cluster (adjB : Story → Story → Bool) {l : List Story}
    {g : List Story} (hg : g ∈ buildClusters adjB l) {x : Story}
    (hx : x ∈ g) : x ∈ l :=
  (buildClusters_flatten_perm adjB l).mem_iff.mp
    (List.mem_flatten.mpr ⟨g, hg, hx⟩)

lemma cluster_ne_nil (adjB : Story → Story → Bool) (l : List Story) :
    ∀ g ∈ buildClusters adjB l, g ≠ [] := by
  induction l with
  | nil => intro g hg; simp [buildClusters] at hg
  | cons s rest ih =>
      intro g hg
      simp only [buildClusters, insertIntoClusters, List.mem_cons] at hg
      rcases hg with h | h
      · subst h; simp
      · exact ih g (List.mem_of_mem_filter h)

lemma buildClusters_flatten_nodup (adjB : Story → Story → Bool)
    {l : List Story} (h : l.Nodup) : ((buildClusters adjB l).flatten).Nodup :=
  ((buildClusters_flatten_perm adjB l).nodup_iff).mpr h

lemma cluster_nodup (adjB : Story → Story → Bool) {l : List Story}
    (hl : l.Nodup) {g : List Story} (hg : g ∈ buildClusters adjB l) :
    g.Nodup := by
  have h := buildClusters_flatten_nodup adjB hl
  rw [List.nodup_flatten] at h
  exact h.1 g hg

lemma clusters_eq_of_common_mem (adjB : Story → Story → Bool)
    {l : List Story} (hl : l.Nodup) {g1 g2 : List Story}
    (h1 : g1 ∈ buildClusters adjB l) (h2 : g2 ∈ buildClusters adjB l)
    {b : Story} (hb1 : b ∈ g1) (hb2 : b ∈ g2) : g1 = g2 := by
  by_contra hne
  have h := buildClusters_flatten_nodup adjB hl
  rw [List.nodup_flatten] at h
  have hdisj : List.Disjoint g1 g2 :=
    h.2.forall (fun _ _ hd => hd.symm) h1 h2 hne
  exact hdisj hb1 hb2

lemma edge_same_cluster (adjB : Story → Story → Bool)
    (hsym : ∀ a b, adjB a b = adjB b a) (l : List Story) :
    ∀ x y : Story, x ∈ l → y ∈ l → adjB x y = true →
      ∃ g, g ∈ buildClusters adjB l ∧ x ∈ g ∧ y ∈ g := by
  induction l with
  | nil => intro x y hx _ _; simp at hx
  | cons s rest ih =>
      intro x y hx hy hxy
      rcases List.mem_cons.mp hx with hxs | hxr
      · rcases List.mem_cons.mp hy with hys | hyr
        · refine ⟨s :: ((buildClusters adjB rest).filter
              (fun g => g.any (fun z => adjB z s))).flatten, ?_, ?_, ?_⟩
          · exact List.mem_cons_self _ _
          · exact hxs ▸ List.mem_cons_self _ _
          · exact hys ▸ List.mem_cons_self _ _
        · subst hxs
          obtain ⟨g0, hg0, hyg0⟩ := exists_cluster_of_mem adjB hyr
          have hys' : adjB y x = true := by rw [hsym]; exact hxy
          have hp : (g0.any (fun z => adjB z x)) = true :=
            List.any_eq_true.mpr ⟨y, hyg0, hys'⟩
          refine ⟨x :: ((buildClusters adjB rest).filter
              (fun g => g.any (fun z => adjB z x))).flatten,
            List.mem_cons_self _ _, List.mem_cons_self _ _, ?_⟩
          exact List.mem_cons_of_mem _
            (List.mem_flatten.mpr ⟨g0, List.mem_filter.mpr ⟨hg0, hp⟩, hyg0⟩)
      · rcases List.mem_cons.mp hy with hys | hyr
        · subst hys
          obtain ⟨g0, hg0, hxg0⟩ := exists_cluster_of_mem adjB hxr
          have hp : (g0.any (fun z => adjB z y)) = true :=
            List.any_eq_true.mpr ⟨x, hxg0, hxy⟩
          refine ⟨y :: ((buildClusters adjB rest).filter
              (fun g => g.any (fun z => adjB z y))).flatten,
            List.mem_cons_self _ _, ?_, List.mem_cons_self _ _⟩
          exact List.mem_cons_of_mem _
            (List.mem_flatten.mpr ⟨g0, List.mem_filter.mpr ⟨hg0, hp⟩, hxg0⟩)
        · obtain ⟨g, hg, hxg, hyg⟩ := ih x y hxr hyr hxy
          by_cases hp : (g.any (fun z => adjB z s)) = true
          · refine ⟨s :: ((buildClusters adjB rest).filter
                (fun g => g.any (fun z => adjB z s))).flatten,
              List.mem_cons_self _ _, ?_, ?_⟩
            · exact List.mem_cons_of_mem _
                (List.mem_flatten.mpr ⟨g, List.mem_filter.mpr ⟨hg, hp⟩, hxg⟩)
            · exact List.mem_cons_of_mem _
                (List.mem_flatten.mpr ⟨g, List.mem_filter.mpr ⟨hg, hp⟩, hyg⟩)
          · refine ⟨g, ?_, hxg, hyg⟩
            have hq : (!(g.any (fun z => adjB z s))) = true := by
              simp only [Bool.not_eq_true'] at hp ⊢
              exact Bool.not_eq_true _ ▸ (by simpa using hp)
            exact List.mem_cons_of_mem _ (List.mem_filter.mpr ⟨hg, hq⟩)

lemma pickCanonical_mem (cur : Story) (l : List Story) :
    pickCanonical cur l = cur ∨ pickCanonical cur l ∈ l := by
  induction l generalizing cur with
  | nil => left; rfl
  | cons s rest ih =>
      simp only [pickCanonical]
      by_cases h : preferredOver s cur = true
      · rw [if_pos h]
        rcases ih s with h1 | h1
        · right; rw [h1]; exact List.mem_cons_self _ _
        · right; exact List.mem_cons_of_mem _ h1
      · rw [if_neg h]
        rcases ih cur with h1 | h1
        · left; exact h1
        · right; exact List.mem_cons_of_mem _ h1

lemma selectCanonical_mem (g : List Story) (c : Story)
    (h : selectCanonical g = some c) : c ∈ g := by
  cases g with
  | nil => simp [selectCanonical] at h
  | cons s rest =>
      simp only [selectCanonical, Option.some_inj] at h
      subst h
      rcases pickCanonical_mem s rest with h1 | h1
      · rw [h1]; exact List.mem_cons_self _ _
      · exact List.mem_cons_of_mem _ h1

lemma countP_decide_eq_one (c : Story) :
    ∀ l : List Story, l.Nodup → c ∈ l →
      l.countP (fun s => decide (s = c)) = 1 := by
  intro l
  induction l with
  | nil => intro _ hc; simp at hc
  | cons a t ih =>
      intro hnd hc
      rcases List.nodup_cons.mp hnd with ⟨hat, hndt⟩
      by_cases hac : a = c
      · subst hac
        rw [List.countP_cons_of_pos _ _ (by simp)]
        have h0 : t.countP (fun s => decide (s = a)) = 0 :=
          List.countP_eq_zero.mpr (fun x hx => by
            simp only [decide_eq_true_eq]
            exact fun he => hat (he ▸ hx))
        rw [h0]
      · have hct : c ∈ t := by
          rcases List.mem_cons.mp hc with h | h
          · exact absurd h.symm hac
          · exact h
        rw [List.countP_cons_of_neg _ _ (by simp [hac])]
        exact ih hndt hct

/-- C4: clustering is transitive (connected components): if a is within
threshold of b and b is within threshold of c (dates within window), all
three land in a single cluster, even when the distance between the
fingerprints of a and c exceeds the threshold. -/
theorem duplicate_clustering_transitive (T W : Nat) (stories : List Story)
    (hnd : stories.Nodup) (a b c : Story)
    (ha : a ∈ stories) (hb : b ∈ stories) (hc : c ∈ stories)
    (hab : nearDuplicate T W a b = true) (hbc : nearDuplicate T W b c = true) :
    ∃ g, g ∈ buildClusters (nearDuplicate T W) stories
      ∧ a ∈ g ∧ b ∈ g ∧ c ∈ g := by
  obtain ⟨g1, hg1, hag1, hbg1⟩ :=
    edge_same_cluster (nearDuplicate T W) (nearDuplicate_comm T W) stories
      a b ha hb hab
  obtain ⟨g2, hg2, hbg2, hcg2⟩ :=
    edge_same_cluster (nearDuplicate T W) (nearDuplicate_comm T W) stories
      b c hb hc hbc
  have heq : g1 = g2 :=
    clusters_eq_of_common_mem (nearDuplicate T W) hnd hg1 hg2 hbg1 hbg2
  exact ⟨g1, hg1, hag1, hbg1, heq ▸ hcg2⟩

/-- A minimal story record used as a concrete witness input. -/
def sampleStory (sid : String) (fp : Nat) : Story :=
  { id := sid
    canonical_url := ""
    title := ""
    description := ""
    content := ""
    published_date := (fp : Int)
    fetched_date := 0
    source_domain := ""
    source_name := ""
    score := none
    relevance_score := none
    impact_score := none
    adoption_score := none
    urgency_score := none
    credibility_score := none
    tags := []
    action_hint := ""
    fingerprint := fp
    is_canonical := true
    similar_stories := [] }

theorem duplicate_clustering_transitive_witness :
    hammingDistance (sampleStory "a" 0).fingerprint
      (sampleStory "c" 3).fingerprint > 1
    ∧ ∃ g, g ∈ buildClusters (nearDuplicate 1 7)
        [sampleStory "a" 0, sampleStory "b" 1, sampleStory "c" 3]
      ∧ sampleStory "a" 0 ∈ g ∧ sampleStory "b" 1 ∈ g
      ∧ sampleStory "c" 3 ∈ g :=
  ⟨by decide,
    duplicate_clustering_transitive 1 7
      [sampleStory "a" 0, sampleStory "b" 1, sampleStory "c" 3]
      (by decide) (sampleStory "a" 0) (sampleStory "b" 1) (sampleStory "c" 3)
      (by decide) (by decide) (by decide) (by decide) (by decide)⟩

/-- C1: in every cluster produced by Duplicate Clustering exactly one record
is canonical; every non-canonical member's similar_stories contains the
canonical member's id; the canonical member's similar_stories lists every
other member; and a singleton cluster's record is canonical with empty
similar_stories. -/
theorem duplicate_cluster_canonical_invariant (T W : Nat)
    (stories : List Story) (hnd : stories.Nodup) (cl : List Story)
    (hcl : cl ∈ dedupClusters T W stories) :
    cl.countP (fun s => s.is_canonical) = 1
    ∧ (∀ s ∈ cl, s.is_canonical = false →
        ∃ cs ∈ cl, cs.is_canonical = true ∧ cs.id ∈ s.similar_stories)
    ∧ (∀ cs ∈ cl, cs.is_canonical = true →
        ∀ s ∈ cl, s ≠ cs → s.id ∈ cs.similar_stories)
    ∧ (cl.length = 1 →
        ∀ s ∈ cl, s.is_canonical = true ∧ s.similar_stories = []) := by
  rcases List.mem_map.mp hcl with ⟨g, hg, hfg⟩
  subst hfg
  have hgne : g ≠ [] := cluster_ne_nil (nearDuplicate T W) stories g hg
  have hgnd : g.Nodup := cluster_nodup (nearDuplicate T W) hnd hg
  obtain ⟨c0, hsel⟩ : ∃ c0, selectCanonical g = some c0 := by
    cases g with
    | nil => exact absurd rfl hgne
    | cons s rest => exact ⟨pickCanonical s rest, rfl⟩
  have hc0 : c0 ∈ g := selectCanonical_mem g c0 hsel
  have hlab : labelCluster g = g.map (fun s =>
      { s with
        is_canonical := decide (s = c0)
        similar_stories := (g.filter (fun t => t != s)).map Story.id }) := by
    unfold labelCluster
    rw [hsel]
  rw [hlab]
  refine ⟨?_, ?_, ?_, ?_⟩
  · rw [List.countP_map]
    have hcomp : ((fun s : Story => s.is_canonical) ∘ (fun s =>
        { s with
          is_canonical := decide (s = c0)
          similar_stories := (g.filter (fun t => t != s)).map Story.id }))
        = (fun s => decide (s = c0)) := rfl
    rw [hcomp]
    exact countP_decide_eq_one c0 g hgnd hc0
  · intro s' hs' hfalse
    rcases List.mem_map.mp hs' with ⟨t, ht, hts⟩
    have htne : t ≠ c0 := by
      intro he
      rw [← hts] at hfalse
      simp [he] at hfalse
    refine ⟨{ c0 with
        is_canonical := decide (c0 = c0)
        similar_stories := (g.filter (fun t => t != c0)).map Story.id },
      List.mem_map_of_mem _ hc0, by simp, ?_⟩
    rw [← hts]
    show c0.id ∈ (g.filter (fun x => x != t)).map Story.id
    exact List.mem_map_of_mem _
      (List.mem_filter.mpr ⟨hc0, by simp [bne_iff_ne]; exact fun h => htne h.symm⟩)
  · intro cs hcs htrue s' hs' hne
    rcases List.mem_map.mp hcs with ⟨t, ht, hts⟩
    have ht0 : t = c0 := by
      rw [← hts] at htrue
      simpa using htrue
    subst ht0
    rcases List.mem_map.mp hs' with ⟨u, hu, hus⟩
    have hu0 : u ≠ t := by
      intro he
      exact hne (by rw [← hus, ← hts, he])
    rw [← hts]
    show s'.id ∈ (g.filter (fun x => x != t)).map Story.id
    have hsid : s'.id = u.id := by rw [← hus]
    rw [hsid]
    exact List.mem_map_of_mem _
      (List.mem_filter.mpr ⟨hu, by simpa [bne_iff_ne] using hu0⟩)
  · intro hlen s' hs'
    have hglen : g.length = 1 := by
      rw [List.length_map] at hlen
      exact hlen
    obtain ⟨t, hgt⟩ : ∃ t, g = [t] := by
      cases g with
      | nil => simp at hglen
      | cons a rest =>
          cases rest with
          | nil => exact ⟨a, rfl⟩
          | cons b rest2 => simp at hglen
    subst hgt
    have hct : c0 = t := by
      rcases List.mem_singleton.mp hc0 with h
      exact h
    subst hct
    rcases List.mem_map.mp hs' with ⟨u, hu, hus⟩
    have hut : u = c0 := List.mem_singleton.mp hu
    subst hut
    constructor
    · rw [← hus]; simp
    · rw [← hus]; simp

theorem duplicate_cluster_canonical_invariant_witness :
    [sampleStory "a" 0, sampleStory "b" 1].Nodup
    ∧ labelCluster [sampleStory "a" 0, sampleStory "b" 1]
        ∈ dedupClusters 1 7 [sampleStory "a" 0, sampleStory "b" 1]
    ∧ (labelCluster [sampleStory "a" 0, sampleStory "b" 1]).countP
        (fun s => s.is_canonical) = 1 :=
  ⟨by decide, by decide,
    (duplicate_cluster_canonical_invariant 1 7
      [sampleStory "a" 0, sampleStory "b" 1] (by decide)
      (labelCluster [sampleStory "a" 0, sampleStory "b" 1]) (by decide)).1⟩

/-! ## Record Store (spec section 4.3; backend storage.py is not in the
source tree, so the rewrite protocol is modelled from the spec) -/

/-- The durable state seen by the Record Store: the collection file and the
optional temporary file used by the rewrite protocol. -/
structure Disk where
  mainFile : List Story
  tempFile : Option (List Story)
deriving DecidableEq

/-- Modelled from the spec: the elementary file-system operations of the
atomic rewrite: create the temporary file, append one record to it, and
atomically rename it over the collection file. -/
inductive FsOp where
  | createTemp : FsOp
  | appendTemp : Story → FsOp
  | renameTempToMain : FsOp
deriving DecidableEq

/-- Effect of one file-system operation on the durable state. -/
def applyOp (d : Disk) : FsOp → Disk
  | .createTemp => { d with tempFile := some [] }
  | .appendTemp r => { d with tempFile := some ((d.tempFile.getD []) ++ [r]) }
  | .renameTempToMain =>
      { mainFile := d.tempFile.getD d.mainFile, tempFile := none }

/-- Modelled from the spec: a Record Store mutation writes the full new
collection to a temporary location record by record and then atomically
replaces the previous collection file (the rename is the last operation). -/
def rewriteProgram (new : List Story) : List FsOp :=
  FsOp.createTemp :: (new.map FsOp.appendTemp ++ [FsOp.renameTempToMain])

/-- Run a sequence of file-system operations. -/
def runOps (d : Disk) (ops : List FsOp) : Disk := ops.foldl applyOp d

/-- Modelled from the spec: recovery after a crash discards the temporary
file and observes the collection file. -/
def recover (d : Disk) : Disk := { mainFile := d.mainFile, tempFile := none }

lemma applyOp_mainFile (d : Disk) (op : FsOp)
    (h : op ≠ FsOp.renameTempToMain) : (applyOp d op).mainFile = d.mainFile := by
  cases op with
  | createTemp => rfl
  | appendTemp r => rfl
  | renameTempToMain => exact absurd rfl h

lemma runOps_mainFile (ops : List FsOp) :
    ∀ d : Disk, (∀ op ∈ ops, op ≠ FsOp.renameTempToMain) →
      (runOps d ops).mainFile = d.mainFile := by
  induction ops with
  | nil => intro d _; rfl
  | cons op rest ih =>
      intro d h
      show (runOps (applyOp d op) rest).mainFile = d.mainFile
      rw [ih (applyOp d op) (fun o ho => h o (List.mem_cons_of_mem op ho)),
        applyOp_mainFile d op (h op (List.mem_cons_self op rest))]

lemma runOps_appendTemp (recs : List Story) :
    ∀ (m t : List Story),
      runOps ⟨m, some t⟩ (recs.map FsOp.appendTemp) = ⟨m, some (t ++ recs)⟩ := by
  induction recs with
  | nil => intro m t; simp [runOps]
  | cons r rest ih =>
      intro m t
      show runOps (applyOp ⟨m, some t⟩ (FsOp.appendTemp r))
        (rest.map FsOp.appendTemp) = _
      have : applyOp ⟨m, some t⟩ (FsOp.appendTemp r) = ⟨m, some (t ++ [r])⟩ := rfl
      rw [this, ih m (t ++ [r])]
      simp

/-- C2: if a crash interrupts a Record Store rewrite at any point strictly
before the atomic replace (the final rename), the collection observed after
recovery is exactly the pre-write snapshot and the temporary file is
discarded; a rewrite that runs to completion installs exactly the new
collection. -/
theorem store_rewrite_atomic (old new : List Story) (k : Nat)
    (hk : k < (rewriteProgram new).length) :
    (recover (runOps ⟨old, none⟩ ((rewriteProgram new).take k))).mainFile = old
    ∧ (recover (runOps ⟨old, none⟩
        ((rewriteProgram new).take k))).tempFile = none
    ∧ runOps ⟨old, none⟩ (rewriteProgram new) = ⟨new, none⟩ := by
  refine ⟨?_, rfl, ?_⟩
  · have hnorename : ∀ op ∈ (rewriteProgram new).take k,
        op ≠ FsOp.renameTempToMain := by
      intro op hop
      have hlen : (rewriteProgram new).length = new.length + 2 := by
        simp [rewriteProgram]
      have hfront : (rewriteProgram new).take k
          = (FsOp.createTemp :: new.map FsOp.appendTemp).take k := by
        have hsplit : rewriteProgram new
            = (FsOp.createTemp :: new.map FsOp.appendTemp)
              ++ [FsOp.renameTempToMain] := by
          simp [rewriteProgram]
        rw [hsplit, List.take_append_of_le_length]
        simp only [List.length_cons, List.length_map]
        omega
      rw [hfront] at hop
      have hop2 := List.take_subset k _ hop
      rcases List.mem_cons.mp hop2 with h | h
      · subst h; intro hct; cases hct
      · rcases List.mem_map.mp h with ⟨r, _, hr⟩
        subst hr; intro hct; cases hct
    rw [recover, runOps_mainFile _ _ hnorename]
  · show runOps ⟨old, none⟩ (FsOp.createTemp
      :: (new.map FsOp.appendTemp ++ [FsOp.renameTempToMain])) = _
    have h1 : applyOp ⟨old, none⟩ FsOp.createTemp = ⟨old, some []⟩ := rfl
    show runOps (applyOp ⟨old, none⟩ FsOp.createTemp)
      (new.map FsOp.appendTemp ++ [FsOp.renameTempToMain]) = _
    rw [h1]
    have h2 : runOps ⟨old, some []⟩
        (new.map FsOp.appendTemp ++ [FsOp.renameTempToMain])
        = runOps (runOps ⟨old, some []⟩ (new.map FsOp.appendTemp))
          [FsOp.renameTempToMain] := by
      simp [runOps, List.foldl_append]
    rw [h2, runOps_appendTemp new old []]
    simp [runOps, applyOp]

theorem store_rewrite_atomic_witness :
    (2 : Nat) < (rewriteProgram [sampleStory "x" 0]).length
    ∧ (recover (runOps ⟨[sampleStory "y" 1], none⟩
        ((rewriteProgram [sampleStory "x" 0]).take 2))).mainFile
      = [sampleStory "y" 1] :=
  ⟨by decide,
    (store_rewrite_atomic [sampleStory "y" 1] [sampleStory "x" 0] 2
      (by decide)).1⟩

/-! ## Pipeline Orchestrator (spec section 4.5; backend crawler_service.py is
not in the source tree, so the job state machine is modelled from the spec) -/

/-- The six pipeline stages, in the order the Dashboard's progress bar lists
them. -/
inductive Stage where
  | start : Stage
  | crawled : Stage
  | scoring : Stage
  | scoring_complete : Stage
  | deduplicating : Stage
  | saving : Stage
deriving DecidableEq

/-- Index of a stage in the canonical order. -/
def stageIdx : Stage → Nat
  | .start => 0
  | .crawled => 1
  | .scoring => 2
  | .scoring_complete => 3
  | .deduplicating => 4
  | .saving => 5

/-- The canonical stage order of one refresh run. -/
def stageOrder : List Stage :=
  [.start, .crawled, .scoring, .scoring_complete, .deduplicating, .saving]

/-- Modelled from the spec: the refresh-job state: idle, running at some
stage, or finished in a terminal state. -/
inductive JobPhase where
  | idle : JobPhase
  | running : Stage → JobPhase
  | succeeded : JobPhase
  | failed : JobPhase
deriving DecidableEq

/-- The orchestrator's shared state: the job cell plus the number of
pipeline executions currently in flight. -/
structure OrchState where
  job : JobPhase
  activeRuns : Nat
deriving DecidableEq

/-- Events acting on the orchestrator state: a refresh request, an internal
stage advance, and run completion (success or failure). -/
inductive OrchEvent where
  | request : OrchEvent
  | advance : Stage → OrchEvent
  | finishSuccess : OrchEvent
  | finishFailure : OrchEvent
deriving DecidableEq

/-- True when the job cell is idle or in a terminal state. -/
def idleOrTerminal : JobPhase → Bool
  | .idle => true
  | .succeeded => true
  | .failed => true
  | .running _ => false

/-- Modelled from the spec: the single-flight check-and-set on job start: a
request is accepted (starting a new run) only when the state is idle or the
previous run has reached a terminal state; otherwise the state is returned
unchanged and the request is rejected. -/
def requestRefresh (o : OrchState) : OrchState × Bool :=
  if idleOrTerminal o.job then
    ({ job := .running .start, activeRuns := o.activeRuns + 1 }, true)
  else
    (o, false)

/-- One orchestrator step. -/
def stepOrch (o : OrchState) : OrchEvent → OrchState
  | .request => (requestRefresh o).1
  | .advance st =>
      match o.job with
      | .running _ => { o with job := .running st }
      | _ => o
  | .finishSuccess =>
      match o.job with
      | .running _ => { job := .succeeded, activeRuns := o.activeRuns - 1 }
      | _ => o
  | .finishFailure =>
      match o.job with
      | .running _ => { job := .failed, activeRuns := o.activeRuns - 1 }
      | _ => o

/-- The orchestrator starts idle with no runs in flight. -/
def initOrch : OrchState := { job := .idle, activeRuns := 0 }

/-- State after a sequence of events from the initial state. -/
def runEvents (evs : List OrchEvent) : OrchState := evs.foldl stepOrch initOrch

/-- The single-flight invariant: a run is in flight exactly when the job
cell says running. -/
def OrchInv (o : OrchState) : Prop :=
  o.activeRuns = (match o.job with | .running _ => 1 | _ => 0)

lemma orchInv_step {o : OrchState} (h : OrchInv o) (e : OrchEvent) :
    OrchInv (stepOrch o e) := by
  obtain ⟨j, n⟩ := o
  unfold OrchInv at h ⊢
  cases e with
  | request =>
      cases j with
      | idle =>
          simp only [] at h
          simp [stepOrch, requestRefresh, idleOrTerminal]
          omega
      | succeeded =>
          simp only [] at h
          simp [stepOrch, requestRefresh, idleOrTerminal]
          omega
      | failed =>
          simp only [] at h
          simp [stepOrch, requestRefresh, idleOrTerminal]
          omega
      | running st =>
          simpa [stepOrch, requestRefresh, idleOrTerminal] using h
  | advance st =>
      cases j with
      | running st2 => simpa [stepOrch] using h
      | idle => simpa [stepOrch] using h
      | succeeded => simpa [stepOrch] using h
      | failed => simpa [stepOrch] using h
  | finishSuccess =>
      cases j with
      | running st2 =>
          simp only [] at h
          simp [stepOrch]
          omega
      | idle => simpa [stepOrch] using h
      | succeeded => simpa [stepOrch] using h
      | failed => simpa [stepOrch] using h
  | finishFailure =>
      cases j with
      | running st2 =>
          simp only [] at h
          simp [stepOrch]
          omega
      | idle => simpa [stepOrch] using h
      | succeeded => simpa [stepOrch] using h
      | failed => simpa [stepOrch] using h

lemma orchInv_runEvents (evs : List OrchEvent) : OrchInv (runEvents evs) := by
  have hgen : ∀ (l : List OrchEvent) (o : OrchState), OrchInv o →
      OrchInv (l.foldl stepOrch o) := by
    intro l
    induction l with
    | nil => intro o h; exact h
    | cons e rest ih => intro o h; exact ih (stepOrch o e) (orchInv_step h e)
  exact hgen evs initOrch rfl

/-- C3: single-flight: for every event sequence at most one refresh run is in
flight; a request issued while the job is running is rejected with the state
(and hence the reported status) unchanged and no second execution started;
and a request is accepted exactly when the job is idle or terminal. -/
theorem refresh_single_flight (evs : List OrchEvent) (o : OrchState)
    (st : Stage) :
    (runEvents evs).activeRuns ≤ 1
    ∧ (o.job = .running st → requestRefresh o = (o, false))
    ∧ ((requestRefresh o).2 = true ↔
        o.job = .idle ∨ o.job = .succeeded ∨ o.job = .failed) := by
  refine ⟨?_, ?_, ?_⟩
  · have h := orchInv_runEvents evs
    unfold OrchInv at h
    rw [h]
    cases (runEvents evs).job <;> simp
  · intro hrun
    unfold requestRefresh
    rw [hrun]
    simp [idleOrTerminal]
  · unfold requestRefresh
    cases hj : o.job <;> simp [idleOrTerminal, hj]

theorem refresh_single_flight_witness :
    (runEvents [OrchEvent.request, OrchEvent.request]).activeRuns ≤ 1
    ∧ (({ job := .running .scoring, activeRuns := 1 } : OrchState).job
        = .running .scoring
      → requestRefresh { job := .running .scoring, activeRuns := 1 }
        = ({ job := .running .scoring, activeRuns := 1 }, false)) :=
  ⟨(refresh_single_flight [OrchEvent.request, OrchEvent.request]
      { job := .running .scoring, activeRuns := 1 } .scoring).1,
    fun h => ((refresh_single_flight [] _ Stage.scoring).2.1 h)⟩

/-- Outcome of one refresh run: success with saved/scored counts, or failure
with the triggering error text. -/
inductive RunOutcome where
  | succeeded : Nat → Nat → RunOutcome
  | failed : String → RunOutcome
deriving DecidableEq

/-- Modelled from the spec: one refresh job run end to end: crawl, score
every candidate (per-item scoring failures drop the item but are not fatal),
deduplicate, save.  The first component is the sequence of stages the job
entered, in order; faults injects an unhandled error at a given stage, and a
crawl error is fatal during the start stage. -/
def runPipeline (faults : Stage → Option String)
    (crawl : Except String (List Candidate))
    (scoreFn : Candidate → Option ScoreResult) (fpFn : Candidate → Nat)
    (fetched : Int) (stored : List Story) (T W : Nat) :
    List Stage × RunOutcome :=
  match faults .start with
  | some e => ([.start], .failed e)
  | none =>
    match crawl with
    | .error e => ([.start], .failed e)
    | .ok cands =>
      match faults .crawled with
      | some e => (stageOrder.take 2, .failed e)
      | none =>
        match faults .scoring with
        | some e => (stageOrder.take 3, .failed e)
        | none =>
          let newStories := cands.filterMap (fun c =>
            (scoreFn c).map (fun sr =>
              applyScore (storyFromCandidate c.canonical_url (fpFn c)
                fetched c) sr))
          match faults .scoring_complete with
          | some e => (stageOrder.take 4, .failed e)
          | none =>
            match faults .deduplicating with
            | some e => (stageOrder.take 5, .failed e)
            | none =>
              let deduped := dedupClusters T W (newStories ++ stored)
              match faults .saving with
              | some e => (stageOrder, .failed e)
              | none =>
                  (stageOrder,
                    .succeeded deduped.flatten.length newStories.length)

/-- C5: the stages a refresh job enters always form a nonempty prefix of
start, crawled, scoring, scoring_complete, deduplicating, saving (advancing
in exactly that order, never backward); a run that ends succeeded passed
every stage with no unhandled error; and the first unhandled error at a
stage moves the job directly to failed from that stage. -/
theorem pipeline_stage_progression (faults : Stage → Option String)
    (crawl : Except String (List Candidate))
    (scoreFn : Candidate → Option ScoreResult) (fpFn : Candidate → Nat)
    (fetched : Int) (stored : List Story) (T W : Nat) :
    (∃ k, 1 ≤ k ∧ k ≤ 6
      ∧ (runPipeline faults crawl scoreFn fpFn fetched stored T W).1
        = stageOrder.take k)
    ∧ (∀ saved scored,
        (runPipeline faults crawl scoreFn fpFn fetched stored T W).2
          = RunOutcome.succeeded saved scored →
        (runPipeline faults crawl scoreFn fpFn fetched stored T W).1
          = stageOrder ∧ ∀ st, faults st = none)
    ∧ (∀ st e, faults st = some e →
        (∀ st2, stageIdx st2 < stageIdx st → faults st2 = none) →
        (∀ er, crawl ≠ Except.error er) →
        (runPipeline faults crawl scoreFn fpFn fetched stored T W).1
          = stageOrder.take (stageIdx st + 1)
        ∧ (runPipeline faults crawl scoreFn fpFn fetched stored T W).2
          = RunOutcome.failed e) := by
  rcases h0 : faults Stage.start with _ | e0
  · rcases hc : crawl with ec | cands
    · have htr : runPipeline faults (Except.error ec) scoreFn fpFn fetched
          stored T W = ([Stage.start], RunOutcome.failed ec) := by
        simp [runPipeline, h0]
      refine ⟨⟨1, by norm_num, by norm_num, by rw [htr]; try rfl⟩, ?_, ?_⟩
      · intro saved scored hs
        rw [htr] at hs
        simp at hs
      · intro st e _ _ hcrawl
        exact absurd rfl (hcrawl ec)
    · rcases h1 : faults Stage.crawled with _ | e1
      · rcases h2 : faults Stage.scoring with _ | e2
        · rcases h3 : faults Stage.scoring_complete with _ | e3
          · rcases h4 : faults Stage.deduplicating with _ | e4
            · rcases h5 : faults Stage.saving with _ | e5
              · have htr : (runPipeline faults (Except.ok cands) scoreFn fpFn fetched
                    stored T W).1 = stageOrder := by
                  simp [runPipeline, h0, h1, h2, h3, h4, h5]
                refine ⟨⟨6, by norm_num, by norm_num, by rw [htr]; try rfl⟩,
                  ?_, ?_⟩
                · intro saved scored _
                  refine ⟨htr, ?_⟩
                  intro st
                  cases st with
                  | start => exact h0
                  | crawled => exact h1
                  | scoring => exact h2
                  | scoring_complete => exact h3
                  | deduplicating => exact h4
                  | saving => exact h5
                · intro st e hst _ _
                  cases st with
                  | start => rw [h0] at hst; simp at hst
                  | crawled => rw [h1] at hst; simp at hst
                  | scoring => rw [h2] at hst; simp at hst
                  | scoring_complete => rw [h3] at hst; simp at hst
                  | deduplicating => rw [h4] at hst; simp at hst
                  | saving => rw [h5] at hst; simp at hst
              · have htr : runPipeline faults (Except.ok cands) scoreFn fpFn fetched
                    stored T W = (stageOrder, RunOutcome.failed e5) := by
                  simp [runPipeline, h0, h1, h2, h3, h4, h5]
                refine ⟨⟨6, by norm_num, by norm_num, by rw [htr]; try rfl⟩,
                  ?_, ?_⟩
                · intro saved scored hs
                  rw [htr] at hs
                  simp at hs
                · intro st e hst hbefore _
                  cases st with
                  | start => rw [h0] at hst; simp at hst
                  | crawled => rw [h1] at hst; simp at hst
                  | scoring => rw [h2] at hst; simp at hst
                  | scoring_complete => rw [h3] at hst; simp at hst
                  | deduplicating => rw [h4] at hst; simp at hst
                  | saving =>
                      rw [h5] at hst
                      have he : e5 = e := Option.some_inj.mp hst
                      subst he
                      exact ⟨by rw [htr]; try rfl, by rw [htr]; try rfl⟩
            · have htr : runPipeline faults (Except.ok cands) scoreFn fpFn fetched
                  stored T W = (stageOrder.take 5, RunOutcome.failed e4) := by
                simp [runPipeline, h0, h1, h2, h3, h4]
              refine ⟨⟨5, by norm_num, by norm_num, by rw [htr]; try rfl⟩, ?_, ?_⟩
              · intro saved scored hs
                rw [htr] at hs
                simp at hs
              · intro st e hst hbefore _
                cases st with
                | start => rw [h0] at hst; simp at hst
                | crawled => rw [h1] at hst; simp at hst
                | scoring => rw [h2] at hst; simp at hst
                | scoring_complete => rw [h3] at hst; simp at hst
                | deduplicating =>
                    rw [h4] at hst
                    have he : e4 = e := Option.some_inj.mp hst
                    subst he
                    exact ⟨by rw [htr]; try rfl, by rw [htr]; try rfl⟩
                | saving =>
                    have hnone := hbefore Stage.deduplicating (by decide)
                    rw [hnone] at h4
                    simp at h4
          · have htr : runPipeline faults (Except.ok cands) scoreFn fpFn fetched
                stored T W = (stageOrder.take 4, RunOutcome.failed e3) := by
              simp [runPipeline, h0, h1, h2, h3]
            refine ⟨⟨4, by norm_num, by norm_num, by rw [htr]; try rfl⟩, ?_, ?_⟩
            · intro saved scored hs
              rw [htr] at hs
              simp at hs
            · intro st e hst hbefore _
              cases st with
              | start => rw [h0] at hst; simp at hst
              | crawled => rw [h1] at hst; simp at hst
              | scoring => rw [h2] at hst; simp at hst
              | scoring_complete =>
                  rw [h3] at hst
                  have he : e3 = e := Option.some_inj.mp hst
                  subst he
                  exact ⟨by rw [htr]; try rfl, by rw [htr]; try rfl⟩
              | deduplicating =>
                  have hnone := hbefore Stage.scoring_complete (by decide)
                  rw [hnone] at h3
                  simp at h3
              | saving =>
                  have hnone := hbefore Stage.scoring_complete (by decide)
                  rw [hnone] at h3
                  simp at h3
        · have htr : runPipeline faults (Except.ok cands) scoreFn fpFn fetched
              stored T W = (stageOrder.take 3, RunOutcome.failed e2) := by
            simp [runPipeline, h0, h1, h2]
          refine ⟨⟨3, by norm_num, by norm_num, by rw [htr]; try rfl⟩, ?_, ?_⟩
          · intro saved scored hs
            rw [htr] at hs
            simp at hs
          · intro st e hst hbefore _
            cases st with
            | start => rw [h0] at hst; simp at hst
            | crawled => rw [h1] at hst; simp at hst
            | scoring =>
                rw [h2] at hst
                have he : e2 = e := Option.some_inj.mp hst
                subst he
                exact ⟨by rw [htr]; try rfl, by rw [htr]; try rfl⟩
            | scoring_complete =>
                have hnone := hbefore Stage.scoring (by decide)
                rw [hnone] at h2
                simp at h2
            | deduplicating =>
                have hnone := hbefore Stage.scoring (by decide)
                rw [hnone] at h2
                simp at h2
            | saving =>
                have hnone := hbefore Stage.scoring (by decide)
                rw [hnone] at h2
                simp at h2
      · have htr : runPipeline faults (Except.ok cands) scoreFn fpFn fetched
            stored T W = (stageOrder.take 2, RunOutcome.failed e1) := by
          simp [runPipeline, h0, h1]
        refine ⟨⟨2, by norm_num, by norm_num, by rw [htr]; try rfl⟩, ?_, ?_⟩
        · intro saved scored hs
          rw [htr] at hs
          simp at hs
        · intro st e hst hbefore _
          cases st with
          | start => rw [h0] at hst; simp at hst
          | crawled =>
              rw [h1] at hst
              have he : e1 = e := Option.some_inj.mp hst
              subst he
              exact ⟨by rw [htr]; try rfl, by rw [htr]; try rfl⟩
          | scoring =>
              have hnone := hbefore Stage.crawled (by decide)
              rw [hnone] at h1
              simp at h1
          | scoring_complete =>
              have hnone := hbefore Stage.crawled (by decide)
              rw [hnone] at h1
              simp at h1
          | deduplicating =>
              have hnone := hbefore Stage.crawled (by decide)
              rw [hnone] at h1
              simp at h1
          | saving =>
              have hnone := hbefore Stage.crawled (by decide)
              rw [hnone] at h1
              simp at h1
  · have htr : runPipeline faults crawl scoreFn fpFn fetched stored T W
        = ([Stage.start], RunOutcome.failed e0) := by
      simp [runPipeline, h0]
    refine ⟨⟨1, by norm_num, by norm_num, by rw [htr]; try rfl⟩, ?_, ?_⟩
    · intro saved scored hs
      rw [htr] at hs
      simp at hs
    · intro st e hst hbefore _
      cases st with
      | start =>
          rw [h0] at hst
          have he : e0 = e := Option.some_inj.mp hst
          subst he
          exact ⟨by rw [htr]; try rfl, by rw [htr]; try rfl⟩
      | crawled =>
          have hnone := hbefore Stage.start (by decide)
          rw [hnone] at h0
          simp at h0
      | scoring =>
          have hnone := hbefore Stage.start (by decide)
          rw [hnone] at h0
          simp at h0
      | scoring_complete =>
          have hnone := hbefore Stage.start (by decide)
          rw [hnone] at h0
          simp at h0
      | deduplicating =>
          have hnone := hbefore Stage.start (by decide)
          rw [hnone] at h0
          simp at h0
      | saving =>
          have hnone := hbefore Stage.start (by decide)
          rw [hnone] at h0
          simp at h0

/-- A fault injection with no unhandled errors, for concrete runs. -/
def noFaults : Stage → Option String := fun _ => none

theorem pipeline_stage_progression_witness :
    (runPipeline noFaults (Except.ok []) (fun _ => none) (fun _ => 0)
      0 [] 1 7).2 = RunOutcome.succeeded 0 0
    ∧ (runPipeline noFaults (Except.ok []) (fun _ => none) (fun _ => 0)
      0 [] 1 7).1 = stageOrder :=
  ⟨by decide,
    ((pipeline_stage_progression noFaults (Except.ok [])
      (fun _ => none) (fun _ => 0) 0 [] 1 7).2.1 0 0 (by decide)).1⟩
